import Mathlib

/-!
Shallow embedding of the `js-style-co-routine` library
(src/include/Promise.h and src/include/AsyncGenerator.h).

Modelling conventions:

* `std::exception_ptr` carries, for every exception the library creates or
  observes, a `what()` message; we model an exception as its message
  (`String`), and a null `exception_ptr` as `none`.
* `std::coroutine_handle<>` and `std::function` callbacks are opaque to the
  state machine; we model them by identifiers (`Nat`).  Invoking a callback
  or resuming a handle is recorded as an event in an event list, so that
  delivery behaviour is observable.
* `handle.resume()` synchronously re-enters the parked coroutine, whose first
  action at its suspension point is `await_resume` on this same promise
  (Promise.h lines 134-141).  The embedding of `Resolve`/`Reject` therefore
  applies the `await_resume` state effect at the resume step and records what
  the awaiter observed (`resumedValue` / `resumedError`).  Code the awaiter
  runs afterwards is outside the model.
* The shared `State` object (`std::shared_ptr<State>`) is the unit of
  modelling; a `Promise<T>` value is just a reference to a `State`.
-/

set_option maxHeartbeats 1000000

namespace JS

/-- Observable delivery events of a promise `State`. -/
inductive Ev (T : Type) where
  /-- the parked coroutine `h` was resumed and `await_resume` returned `v` -/
  | resumedValue (h : Nat) (v : T)
  /-- the parked coroutine `h` was resumed and `await_resume` rethrew `e` -/
  | resumedError (h : Nat) (e : String)
  /-- the registered `thenCallback` `cb` was invoked with `v` -/
  | thenCalled (cb : Nat) (v : T)
  /-- the registered `catchCallback` `cb` was invoked with error `e` -/
  | catchCalled (cb : Nat) (e : String)
  deriving Repr, DecidableEq

/-- `Promise<T>::State` (Promise.h lines 21-79). -/
structure PState (T : Type) where
  /-- `std::optional<T> value` -/
  value : Option T := none
  /-- `std::exception_ptr exception = nullptr` (modelled by its message) -/
  exception : Option String := none
  /-- `std::coroutine_handle<> callingHandle = nullptr` -/
  callingHandle : Option Nat := none
  /-- `std::function<void(T)> thenCallback = nullptr` -/
  thenCallback : Option Nat := none
  /-- `std::function<void(const std::exception &)> catchCallback = nullptr` -/
  catchCallback : Option Nat := none
  deriving Repr, DecidableEq

/-- `Promise<T>::State::Resolve` (Promise.h lines 28-55): store the value;
if a coroutine is parked resume it (its `await_resume` rethrows a stored
exception, or takes the value); else if a then-callback is registered, take
the value and invoke the callback.  Nothing is guarded by a settled check,
and the callback slot is not cleared. -/
def PState.Resolve (s : PState T) (v : T) : PState T × List (Ev T) :=
  let s1 : PState T := { s with value := some v }
  match s1.callingHandle with
  | some h =>
    match s1.exception with
    | some e => (s1, [Ev.resumedError h e])
    | none => ({ s1 with value := none }, [Ev.resumedValue h v])
  | none =>
    match s1.thenCallback with
    | some cb => ({ s1 with value := none }, [Ev.thenCalled cb v])
    | none => (s1, [])

/-- `Promise<T>::State::Reject` (Promise.h lines 56-78): store the exception;
if a coroutine is parked resume it (its `await_resume` rethrows); else if a
catch-callback is registered, invoke it.  The stored exception is never
cleared, and the callback slot is not cleared. -/
def PState.Reject (s : PState T) (e : String) : PState T × List (Ev T) :=
  let s1 : PState T := { s with exception := some e }
  match s1.callingHandle with
  | some h => (s1, [Ev.resumedError h e])
  | none =>
    match s1.catchCallback with
    | some cb => (s1, [Ev.catchCalled cb e])
    | none => (s1, [])

/-- `Promise<T>::await_ready` (Promise.h lines 114-117). -/
def PState.await_ready (s : PState T) : Bool :=
  s.value.isSome || s.exception.isSome

/-- `Promise<T>::await_suspend` (Promise.h lines 124-127). -/
def PState.await_suspend (s : PState T) (h : Nat) : PState T :=
  { s with callingHandle := some h }

/-- `Promise<T>::await_resume` (Promise.h lines 134-141): rethrow a stored
exception, else exchange the stored value for `none` and return it
(`.ok none` models the `bad_optional_access` of `.value()` on an empty
optional, which no path below reaches). -/
def PState.await_resume (s : PState T) : PState T × Except String (Option T) :=
  match s.exception with
  | some e => (s, Except.error e)
  | none => ({ s with value := none }, Except.ok s.value)

/-- `Promise<T>::Then` (Promise.h lines 191-205): throws
"Promise is already awaited" when a coroutine is parked; else stores the
callback (silently replacing any previous one) and, if a value is already
stored, takes it and fires the just-registered callback synchronously. -/
def PState.Then (s : PState T) (cb : Nat) :
    Except String (PState T × List (Ev T)) :=
  match s.callingHandle with
  | some _ => Except.error "Promise is already awaited"
  | none =>
    let s1 : PState T := { s with thenCallback := some cb }
    match s1.value with
    | some v => Except.ok ({ s1 with value := none }, [Ev.thenCalled cb v])
    | none => Except.ok (s1, [])

/-- `Promise<T>::Catch` (Promise.h lines 207-225): throws
"Promise is already awaited" when a coroutine is parked; else stores the
callback (silently replacing any previous one) and, if an exception is
already stored, fires the just-registered callback synchronously.  The
stored exception is not cleared. -/
def PState.Catch (s : PState T) (cb : Nat) :
    Except String (PState T × List (Ev T)) :=
  match s.callingHandle with
  | some _ => Except.error "Promise is already awaited"
  | none =>
    let s1 : PState T := { s with catchCallback := some cb }
    match s1.exception with
    | some e => Except.ok (s1, [Ev.catchCalled cb e])
    | none => Except.ok (s1, [])

/-- Operations a client can perform on one promise `State`. -/
inductive POp (T : Type) where
  | resolve (v : T)
  | reject (e : String)
  | thenReg (cb : Nat)
  | catchReg (cb : Nat)
  | park (h : Nat)
  deriving Repr, DecidableEq

/-- One operation applied to a promise state.  A `Then`/`Catch` that throws
leaves the state unchanged and delivers nothing (the exception propagates to
the caller of `Then`/`Catch`). -/
def PState.step (s : PState T) : POp T → PState T × List (Ev T)
  | POp.resolve v => s.Resolve v
  | POp.reject e => s.Reject e
  | POp.thenReg cb =>
    match s.Then cb with
    | Except.ok r => r
    | Except.error _ => (s, [])
  | POp.catchReg cb =>
    match s.Catch cb with
    | Except.ok r => r
    | Except.error _ => (s, [])
  | POp.park h => (s.await_suspend h, [])

/-- Run a sequence of operations, collecting all delivery events. -/
def PState.run (s : PState T) : List (POp T) → PState T × List (Ev T)
  | [] => (s, [])
  | op :: ops =>
    let r1 := s.step op
    let r2 := r1.1.run ops
    (r2.1, r1.2 ++ r2.2)

/-!
`AsyncGenerator<T, R>::State` (AsyncGenerator.h lines 11-132).  The
`AsyncGenerator<T, void>` specialization (lines 227-321) has textually
identical `NextAsync`, `Feed` and `Reject` bodies; its `Finish` takes no
argument and stores no return value, which coincides with this model at
`R := Unit` up to the (unobservable for it) `returnValue` field.
The generator stores a waiter promise (`nextPromise`) that is aliased by the
promise handed to the consumer; settling it through `Feed`/`Finish`/`Reject`
produces the delivery events of that shared promise state.
-/

/-- `AsyncGenerator<T, R>::State` fields (AsyncGenerator.h lines 11-18).
The front of `values` is the front of the `std::queue`. -/
structure GState (T R : Type) where
  /-- `std::queue<T> values` -/
  values : List T := []
  /-- `std::exception_ptr exception{nullptr}` (modelled by its message) -/
  exception : Option String := none
  /-- `std::optional<Promise<std::optional<T>>> nextPromise` (shared state of
  the promise handed out to the parked consumer) -/
  nextPromise : Option (PState (Option T)) := none
  /-- `std::optional<R> returnValue` (absent in the `R = void` specialization) -/
  returnValue : Option R := none
  /-- `bool finished{false}` -/
  finished : Bool := false
  deriving Repr, DecidableEq

/-- Result of `NextAsync`: either a fresh promise that was settled before
being returned, or the parked case, where the returned promise is the very
`nextPromise` now stored in the generator state (aliased shared state). -/
inductive NextResult (T : Type) where
  | settled (p : PState (Option T))
  | parked
  deriving Repr, DecidableEq

/-- `AsyncGenerator<T,R>::State::NextAsync` (AsyncGenerator.h lines 19-46):
pop the buffer front into a resolved promise; else take (and clear) a
pending exception into a rejected promise; else if finished resolve with an
empty optional; else if a waiter is already stored reject with
"Overlapping Next calls are not allowed"; else store a fresh promise as the
waiter and return it unsettled. -/
def GState.NextAsync (g : GState T R) : GState T R × NextResult T :=
  match g.values with
  | v :: rest =>
    ({ g with values := rest },
      NextResult.settled (PState.Resolve {} (some v)).1)
  | [] =>
    match g.exception with
    | some e =>
      ({ g with exception := none },
        NextResult.settled (PState.Reject {} e).1)
    | none =>
      if g.finished then
        (g, NextResult.settled (PState.Resolve {} (none : Option T)).1)
      else
        match g.nextPromise with
        | some _ =>
          (g, NextResult.settled
            (PState.Reject {} "Overlapping Next calls are not allowed").1)
        | none => ({ g with nextPromise := some {} }, NextResult.parked)

/-- `AsyncGenerator<T,R>::State::Feed` (AsyncGenerator.h lines 48-74): if a
waiter is stored, pop it and resolve it with the value; else push the value
onto the buffer.  `finished` is not consulted. -/
def GState.Feed (g : GState T R) (v : T) :
    GState T R × List (Ev (Option T)) :=
  match g.nextPromise with
  | some p =>
    let r := p.Resolve (some v)
    ({ g with nextPromise := none }, r.2)
  | none => ({ g with values := g.values ++ [v] }, [])

/-- `AsyncGenerator<T,R>::State::Finish` (AsyncGenerator.h lines 76-102):
set `finished`, store the return value first, then resolve a stored waiter
with an empty optional. -/
def GState.Finish (g : GState T R) (r : R) :
    GState T R × List (Ev (Option T)) :=
  let g1 : GState T R := { g with finished := true, returnValue := some r }
  match g1.nextPromise with
  | some p =>
    let r2 := p.Resolve (none : Option T)
    ({ g1 with nextPromise := none }, r2.2)
  | none => (g1, [])

/-- `AsyncGenerator<T,R>::State::Reject` (AsyncGenerator.h lines 104-122):
set `finished`; if a waiter is stored, pop and reject it; else store the
exception for the next `NextAsync`. -/
def GState.Reject (g : GState T R) (e : String) :
    GState T R × List (Ev (Option T)) :=
  let g1 : GState T R := { g with finished := true }
  match g1.nextPromise with
  | some p =>
    let r2 := p.Reject e
    ({ g1 with nextPromise := none }, r2.2)
  | none => ({ g1 with exception := some e }, [])

/-- `AsyncGenerator<T,R>::State::GetReturnValue` (AsyncGenerator.h lines
124-131): throws unless `finished` holds and a return value is stored. -/
def GState.GetReturnValue (g : GState T R) : Except String R :=
  match g.finished, g.returnValue with
  | true, some r => Except.ok r
  | _, _ =>
    Except.error "Generator has not finished or return value is not set"

/-- Operations a producer/consumer pair can perform on one generator state
(the operations named by the specification: next, feed, finish, reject). -/
inductive GOp (T R : Type) where
  | next
  | feed (v : T)
  | finish (r : R)
  | reject (e : String)
  deriving Repr, DecidableEq

/-- One generator operation, projected to the generator state. -/
def GState.gstep (g : GState T R) : GOp T R → GState T R
  | GOp.next => (g.NextAsync).1
  | GOp.feed v => (g.Feed v).1
  | GOp.finish r => (g.Finish r).1
  | GOp.reject e => (g.Reject e).1

/-- Run a sequence of generator operations. -/
def GState.grun (g : GState T R) : List (GOp T R) → GState T R
  | [] => g
  | op :: ops => (g.gstep op).grun ops

/-!
`Promise<T>::All` (Promise.h lines 232-273) and `Promise<T>::Any`
(Promise.h lines 275-314).  Both register a then-callback and a
catch-callback on each input promise `i` and share a heap record plus the
result promise.  A settlement of input `i` invokes exactly the callback of
the matching kind registered on it (Promise.h lines 28-74); a run of the
combinator is therefore modelled as the fold of the shared record over the
sequence of input settlements, in settlement order.  Inputs that are already
settled at registration time fire their callback during registration; that
is the same event, merely placed at the front of the sequence, so the fold
covers it as well.
-/

/-- `size_t` modulus. -/
def usize : Nat := 2 ^ 64

/-- `--pending` on a `size_t`: decrement modulo `2^64`. -/
def usub1 (p : Nat) : Nat := (p + (usize - 1)) % usize

/-- One settlement of input promise `i` (in settlement order): the input
resolved with `v`, or rejected with an exception whose message is `e`. -/
inductive Settle (T : Type) where
  | res (i : Nat) (v : T)
  | rej (i : Nat) (e : String)
  deriving Repr, DecidableEq

/-- `Settle.res` discriminator. -/
def Settle.isRes : Settle T → Bool
  | Settle.res _ _ => true
  | Settle.rej _ _ => false

/-- The `Result` record of `Promise<T>::All` (Promise.h lines 240-245)
together with the result promise it settles. -/
structure AllRun (T : Type) where
  /-- `std::vector<T> values` (resized to `n` default-constructed slots) -/
  values : List T
  /-- `size_t pending` -/
  pending : Nat
  /-- `bool rejected` -/
  rejected : Bool
  /-- the shared state of `resultPromise` -/
  promise : PState (List T)
  deriving Repr, DecidableEq

/-- The shared state set up by `Promise<T>::All` before any settlement
(Promise.h lines 239-249): `values` holds `n` default-constructed slots,
`pending = n`, `rejected = false`, fresh result promise. -/
def AllRun.init (T : Type) [Inhabited T] (n : Nat) : AllRun T :=
  { values := List.replicate n default
    pending := n
    rejected := false
    promise := {} }

/-- The then-callback `Promise<T>::All` registers on input `i`
(Promise.h lines 252-262): ignore if already rejected; else write the value
at position `i`, decrement `pending`, and resolve the result promise with
the values vector when `pending` reaches zero. -/
def AllRun.thenCb (st : AllRun T) (i : Nat) (v : T) :
    AllRun T × List (Ev (List T)) :=
  if st.rejected then (st, [])
  else
    let values := st.values.set i v
    let pending := usub1 st.pending
    if pending = 0 then
      let r := st.promise.Resolve values
      ({ st with values := values, pending := pending, promise := r.1 }, r.2)
    else
      ({ st with values := values, pending := pending }, [])

/-- The catch-callback `Promise<T>::All` registers on every input
(Promise.h lines 263-270): ignore if already rejected; else mark rejected
and reject the result promise with the failure's message. -/
def AllRun.catchCb (st : AllRun T) (e : String) :
    AllRun T × List (Ev (List T)) :=
  if st.rejected then (st, [])
  else
    let r := st.promise.Reject e
    ({ st with rejected := true, promise := r.1 }, r.2)

/-- Dispatch one input settlement to the callback `All` registered on it. -/
def AllRun.step (st : AllRun T) : Settle T → AllRun T × List (Ev (List T))
  | Settle.res i v => st.thenCb i v
  | Settle.rej _ e => st.catchCb e

/-- Fold the `All` shared state over a sequence of input settlements. -/
def AllRun.run (st : AllRun T) : List (Settle T) → AllRun T × List (Ev (List T))
  | [] => (st, [])
  | ev :: evs =>
    let r1 := st.step ev
    let r2 := r1.1.run evs
    (r2.1, r1.2 ++ r2.2)

/-- The `Result` record of `Promise<T>::Any` (Promise.h lines 283-287)
together with the result promise it settles. -/
structure AnyRun (T : Type) where
  /-- `size_t pending` -/
  pending : Nat
  /-- `bool resolved` -/
  resolved : Bool
  /-- the shared state of `resultPromise` -/
  promise : PState T
  deriving Repr, DecidableEq

/-- The shared state set up by `Promise<T>::Any` before any settlement
(Promise.h lines 282-290). -/
def AnyRun.init (T : Type) (n : Nat) : AnyRun T :=
  { pending := n, resolved := false, promise := {} }

/-- The then-callback `Promise<T>::Any` registers on every input
(Promise.h lines 293-300): ignore if already resolved; else mark resolved
and resolve the result promise with this value. -/
def AnyRun.thenCb (st : AnyRun T) (v : T) : AnyRun T × List (Ev T) :=
  if st.resolved then (st, [])
  else
    let r := st.promise.Resolve v
    ({ st with resolved := true, promise := r.1 }, r.2)

/-- The catch-callback `Promise<T>::Any` registers on every input
(Promise.h lines 301-311): ignore if already resolved; else decrement
`pending`, and when it reaches zero reject the result promise with the
fixed message "All promises rejected". -/
def AnyRun.catchCb (st : AnyRun T) : AnyRun T × List (Ev T) :=
  if st.resolved then (st, [])
  else
    let pending := usub1 st.pending
    if pending = 0 then
      let r := st.promise.Reject "All promises rejected"
      ({ st with pending := pending, promise := r.1 }, r.2)
    else
      ({ st with pending := pending }, [])

/-- Dispatch one input settlement to the callback `Any` registered on it. -/
def AnyRun.step (st : AnyRun T) : Settle T → AnyRun T × List (Ev T)
  | Settle.res _ v => st.thenCb v
  | Settle.rej _ _ => st.catchCb

/-- Fold the `Any` shared state over a sequence of input settlements. -/
def AnyRun.run (st : AnyRun T) : List (Settle T) → AnyRun T × List (Ev T)
  | [] => (st, [])
  | ev :: evs =>
    let r1 := st.step ev
    let r2 := r1.1.run evs
    (r2.1, r1.2 ++ r2.2)

/-!  Claim theorems.  -/

/-- C1: the claim says settlement is one-shot — after the first `Resolve`
or `Reject`, every later `Resolve`/`Reject` is a no-op leaving the stored
value, stored error and delivery behaviour unchanged.  The code has no
settled guard: on a promise resolved to `1` a second `Resolve 2` overwrites
the stored value with `2`, and on a promise whose then-callback has already
fired a second `Resolve` fires the retained callback again. -/
theorem C1_resettlement_not_noop :
    (PState.Resolve (PState.Resolve ({} : PState Nat) 1).1 2).1.value = some 2
    ∧ (PState.run ({} : PState Nat)
        [POp.thenReg 0, POp.resolve 1, POp.resolve 2]).2
      = [Ev.thenCalled 0 1, Ev.thenCalled 0 2] := by
  exact ⟨rfl, rfl⟩

/-- C2 counterexample: on a state whose waiter is present (buffer empty, no
pending error, not finished), `NextAsync` rejects with the message
"Overlapping Next calls are not allowed", not with the message
"overlapping next() calls are not allowed" quoted by the claim. -/
theorem C2_overlap_message_counterexample :
    ((({ nextPromise := some {} } : GState Nat Unit).NextAsync).2
      = NextResult.settled
          { exception := some "Overlapping Next calls are not allowed" })
    ∧ ((({ nextPromise := some {} } : GState Nat Unit).NextAsync).2
      ≠ NextResult.settled
          { exception := some "overlapping next() calls are not allowed" }) := by
  exact ⟨rfl, by decide⟩

/-- C2 (amended): `NextAsync` decides by the first matching case, in this
order — non-empty buffer pops the front and resolves with it; else a pending
error is taken (cleared) and rejected with; else finished resolves with an
empty optional; else a present waiter causes a rejection with the message
"Overlapping Next calls are not allowed"; else a fresh promise is stored as
the waiter and returned unsettled. -/
theorem C2_next_decides_in_order (T R : Type) (g : GState T R) :
    (∀ v rest, g.values = v :: rest →
      g.NextAsync = ({ g with values := rest },
        NextResult.settled { value := some (some v) }))
    ∧ (∀ e, g.values = [] → g.exception = some e →
      g.NextAsync = ({ g with exception := none },
        NextResult.settled { exception := some e }))
    ∧ (g.values = [] → g.exception = none → g.finished = true →
      g.NextAsync = (g, NextResult.settled { value := some none }))
    ∧ (∀ p, g.values = [] → g.exception = none → g.finished = false →
      g.nextPromise = some p →
      g.NextAsync = (g, NextResult.settled
        { exception := some "Overlapping Next calls are not allowed" }))
    ∧ (g.values = [] → g.exception = none → g.finished = false →
      g.nextPromise = none →
      g.NextAsync = ({ g with nextPromise := some {} }, NextResult.parked)) := by
  refine ⟨?_, ?_, ?_, ?_, ?_⟩
  · intro v rest h
    simp [GState.NextAsync, PState.Resolve, h]
  · intro e h he
    simp [GState.NextAsync, PState.Reject, h, he]
  · intro h he hf
    simp [GState.NextAsync, PState.Resolve, h, he, hf]
  · intro p h he hf hp
    simp [GState.NextAsync, PState.Reject, h, he, hf, hp]
  · intro h he hf hp
    simp [GState.NextAsync, h, he, hf, hp]

/-- C2 (amended) at concrete inputs: popping a buffered `3`, and rejecting
an overlapping call. -/
theorem C2_next_decides_in_order_witness :
    (({ values := [3] } : GState Nat Unit).NextAsync
      = ({ values := [] }, NextResult.settled { value := some (some 3) }))
    ∧ (({ nextPromise := some {} } : GState Nat Unit).NextAsync
      = ({ nextPromise := some {} }, NextResult.settled
          { exception := some "Overlapping Next calls are not allowed" })) := by
  constructor
  · exact (C2_next_decides_in_order Nat Unit { values := [3] }).1 3 [] rfl
  · exact (C2_next_decides_in_order Nat Unit
      { nextPromise := some {} }).2.2.2.1 {} rfl rfl rfl rfl

/-- C4 counterexample: the claim says a failure is delivered at most once
and to at most one party.  Rejecting once and then registering two catch
callbacks in turn (legal: no awaiter is parked, and registration replaces
the previous callback) delivers the same failure twice, to two parties:
the stored error is never cleared, so each registration against the stored
error fires. -/
theorem C4_double_delivery_counterexample :
    (PState.run ({} : PState Nat)
      [POp.catchReg 1, POp.reject "boom", POp.catchReg 2]).2
      = [Ev.catchCalled 1 "boom", Ev.catchCalled 2 "boom"] := by
  exact rfl

/-- C4 (amended): a single `Reject` call delivers the failure to at most
one party — the parked awaiter is resumed (and `await_resume` rethrows) if
present, else the registered catch callback is invoked, else nothing is
delivered; never both in one call.  The stored error is however not cleared
on delivery, so a later `Catch` registration (or await) against the stored
error delivers it again. -/
theorem C4_single_reject_single_party (T : Type) (s : PState T) (e : String) :
    (s.Reject e).2.length ≤ 1
    ∧ (∀ h, s.callingHandle = some h →
        (s.Reject e).2 = [Ev.resumedError h e])
    ∧ (∀ cb, s.callingHandle = none → s.catchCallback = some cb →
        (s.Reject e).2 = [Ev.catchCalled cb e])
    ∧ (s.callingHandle = none → s.catchCallback = none →
        (s.Reject e).2 = []) := by
  refine ⟨?_, ?_, ?_, ?_⟩
  · rcases hch : s.callingHandle with _ | h
    · rcases hcc : s.catchCallback with _ | cb <;>
        simp [PState.Reject, hch, hcc]
    · simp [PState.Reject, hch]
  · intro h hch
    simp [PState.Reject, hch]
  · intro cb hch hcc
    simp [PState.Reject, hch, hcc]
  · intro hch hcc
    simp [PState.Reject, hch, hcc]

/-- C4 (amended) at concrete inputs: a reject against a parked awaiter
resumes it alone; a reject with only a catch callback fires it alone. -/
theorem C4_single_reject_single_party_witness :
    ((({ callingHandle := some 9 } : PState Nat).Reject "err").2
      = [Ev.resumedError 9 "err"])
    ∧ ((({ catchCallback := some 5 } : PState Nat).Reject "err").2
      = [Ev.catchCalled 5 "err"]) := by
  constructor
  · exact (C4_single_reject_single_party Nat
      { callingHandle := some 9 } "err").2.1 9 rfl
  · exact (C4_single_reject_single_party Nat
      { catchCallback := some 5 } "err").2.2.1 5 rfl rfl

/-- C9 counterexample: the claim says the callback slot is cleared after a
continuation fires.  Registering then-callback `7` and then resolving fires
it, but the final state still stores `thenCallback = some 7`. -/
theorem C9_callback_retained_counterexample :
    ((PState.run ({} : PState Nat) [POp.thenReg 7, POp.resolve 3]).2
      = [Ev.thenCalled 7 3])
    ∧ ((PState.run ({} : PState Nat)
        [POp.thenReg 7, POp.resolve 3]).1.thenCallback = some 7) := by
  exact ⟨rfl, rfl⟩

/-- C9 (amended): after a then continuation fires the stored *value* slot
is cleared before invocation (and a catch continuation leaves the stored
error in place); the callback slots themselves are never cleared — the
continuation's closure is retained in the state after invocation, and a
later settlement can invoke it again. -/
theorem C9_value_cleared_callback_retained (T : Type) (s : PState T)
    (cb : Nat) (v : T) (e : String) :
    (s.callingHandle = none → s.thenCallback = some cb →
      s.Resolve v = ({ s with value := none }, [Ev.thenCalled cb v]))
    ∧ (s.callingHandle = none → s.value = some v →
      s.Then cb = Except.ok
        ({ s with thenCallback := some cb, value := none },
          [Ev.thenCalled cb v]))
    ∧ (s.callingHandle = none → s.catchCallback = some cb →
      s.Reject e = ({ s with exception := some e }, [Ev.catchCalled cb e]))
    ∧ (s.callingHandle = none → s.exception = some e →
      s.Catch cb = Except.ok
        ({ s with catchCallback := some cb }, [Ev.catchCalled cb e])) := by
  refine ⟨?_, ?_, ?_, ?_⟩
  · intro hch ht
    simp [PState.Resolve, hch, ht]
  · intro hch hv
    simp [PState.Then, hch, hv]
  · intro hch hcc
    simp [PState.Reject, hch, hcc]
  · intro hch he
    simp [PState.Catch, hch, he]

/-- C9 (amended) at concrete inputs: resolving with then-callback `7`
registered clears the value but keeps the callback; rejecting with
catch-callback `5` registered keeps both the error and the callback. -/
theorem C9_value_cleared_callback_retained_witness :
    (({ thenCallback := some 7 } : PState Nat).Resolve 3
      = ({ thenCallback := some 7 }, [Ev.thenCalled 7 3]))
    ∧ (({ catchCallback := some 5 } : PState Nat).Reject "err"
      = ({ catchCallback := some 5, exception := some "err" },
          [Ev.catchCalled 5 "err"])) := by
  constructor
  · exact (C9_value_cleared_callback_retained Nat
      { thenCallback := some 7 } 7 3 "err").1 rfl rfl
  · exact (C9_value_cleared_callback_retained Nat
      { catchCallback := some 5 } 5 3 "err").2.2.1 rfl rfl

/-- C5 counterexample: the claim says `finished = true` is terminal — no
value enters the buffer and every later `next()` resolves empty.  After
`Finish` then `Feed 5`, the buffer holds `[5]` and the next `NextAsync`
resolves with `some 5`, not with the empty optional: `Feed` never consults
`finished`. -/
theorem C5_feed_after_finish_counterexample :
    ((GState.grun ({} : GState Nat Unit)
        [GOp.finish (), GOp.feed 5]).values = [5])
    ∧ (((GState.grun ({} : GState Nat Unit)
        [GOp.finish (), GOp.feed 5]).NextAsync).2
      = NextResult.settled { value := some (some 5) }) := by
  exact ⟨rfl, rfl⟩

/-- C5 (amended): `finished` is absorbing under every operation, and once
finished no waiter is stored, so `Feed` on a finished stream with no waiter
still enqueues its value; `next()` on a finished stream resolves with the
empty optional provided the buffer is empty and no pending error is stored,
and then leaves the state unchanged, so arbitrarily many further `next()`
calls all resolve empty. -/
theorem C5_finished_terminal (T R : Type) (g : GState T R) (v : T) :
    (∀ op, g.finished = true → (g.gstep op).finished = true)
    ∧ (g.finished = true → g.nextPromise = none →
        (g.Feed v).1.values = g.values ++ [v])
    ∧ (g.finished = true → g.values = [] → g.exception = none →
        g.NextAsync = (g, NextResult.settled { value := some none }))
    ∧ (∀ k, g.finished = true → g.values = [] → g.exception = none →
        g.grun (List.replicate k GOp.next) = g) := by
  refine ⟨?_, ?_, ?_, ?_⟩
  · intro op hf
    cases op with
    | next =>
      rcases hv : g.values with _ | ⟨v1, rest⟩
      · rcases he : g.exception with _ | e
        · simp [GState.gstep, GState.NextAsync, hv, he, hf]
        · simp [GState.gstep, GState.NextAsync, hv, he, hf]
      · simp [GState.gstep, GState.NextAsync, hv, hf]
    | feed w =>
      rcases hp : g.nextPromise with _ | p <;>
        simp [GState.gstep, GState.Feed, hp, hf]
    | finish r =>
      rcases hp : g.nextPromise with _ | p <;>
        simp [GState.gstep, GState.Finish, hp]
    | reject e =>
      rcases hp : g.nextPromise with _ | p <;>
        simp [GState.gstep, GState.Reject, hp]
  · intro _ hp
    simp [GState.Feed, hp]
  · intro hf hv he
    simp [GState.NextAsync, PState.Resolve, hv, he, hf]
  · intro k hf hv he
    induction k with
    | zero => rfl
    | succ n ih =>
      have hstep : g.gstep GOp.next = g := by
        simp [GState.gstep, GState.NextAsync, hv, he, hf]
      simp [List.replicate_succ, GState.grun, hstep, ih]

/-- C5 (amended) at concrete inputs: finished-and-drained stream, feeding
enqueues, and three further `next()` calls leave the state unchanged. -/
theorem C5_finished_terminal_witness :
    ((({ finished := true } : GState Nat Unit).Feed 5).1.values = [5])
    ∧ (({ finished := true } : GState Nat Unit).NextAsync
      = ({ finished := true }, NextResult.settled { value := some none }))
    ∧ (({ finished := true } : GState Nat Unit).grun
        (List.replicate 3 GOp.next) = { finished := true }) := by
  refine ⟨?_, ?_, ?_⟩
  · exact (C5_finished_terminal Nat Unit { finished := true } 5).2.1 rfl rfl
  · exact (C5_finished_terminal Nat Unit
      { finished := true } 5).2.2.1 rfl rfl rfl
  · exact (C5_finished_terminal Nat Unit
      { finished := true } 5).2.2.2 3 rfl rfl rfl

/-- Helper: operations other than `finish` never store a return value. -/
theorem gstep_returnValue_of_ne_finish (g : GState T R) (op : GOp T R)
    (h : ∀ x, op ≠ GOp.finish x) :
    (g.gstep op).returnValue = g.returnValue := by
  cases op with
  | next =>
    rcases hv : g.values with _ | ⟨v1, rest⟩
    · rcases he : g.exception with _ | e
      · by_cases hf : g.finished = true
        · simp [GState.gstep, GState.NextAsync, hv, he, hf]
        · rcases hp : g.nextPromise with _ | p <;>
            simp [GState.gstep, GState.NextAsync, hv, he, hf, hp]
      · simp [GState.gstep, GState.NextAsync, hv, he]
    · simp [GState.gstep, GState.NextAsync, hv]
  | feed w =>
    rcases hp : g.nextPromise with _ | p <;>
      simp [GState.gstep, GState.Feed, hp]
  | finish x => exact absurd rfl (h x)
  | reject e =>
    rcases hp : g.nextPromise with _ | p <;>
      simp [GState.gstep, GState.Reject, hp]

/-- Helper: a run containing no `finish` operation keeps `returnValue`
absent. -/
theorem grun_returnValue_none (g : GState T R) (ops : List (GOp T R))
    (hg : g.returnValue = none) (h : ∀ x, GOp.finish x ∉ ops) :
    (g.grun ops).returnValue = none := by
  induction ops generalizing g with
  | nil => exact hg
  | cons op rest ih =>
    have hop : ∀ x, op ≠ GOp.finish x := by
      intro x hx
      exact h x (by simp [hx])
    have hrest : ∀ x, GOp.finish x ∉ rest := by
      intro x hx
      exact h x (by simp [hx])
    have : (g.gstep op).returnValue = none := by
      rw [gstep_returnValue_of_ne_finish g op hop]
      exact hg
    exact ih (g.gstep op) this hrest

/-- C8: `GetReturnValue` returns the stored `R` exactly when `finished`
holds and a return value is present; in every other state — not finished,
or finished without a stored return value (e.g. by `Reject`, or because the
producer never reached the typed finish) — it fails with an error.  In
particular a run that never performs `finish` always fails. -/
theorem C8_return_value (T R : Type) (g : GState T R) (r : R)
    (ops : List (GOp T R)) :
    (g.GetReturnValue = Except.ok r ↔
      (g.finished = true ∧ g.returnValue = some r))
    ∧ (g.finished = false ∨ g.returnValue = none →
      g.GetReturnValue
        = Except.error "Generator has not finished or return value is not set")
    ∧ ((∀ x, GOp.finish x ∉ ops) →
      (GState.grun ({} : GState T R) ops).GetReturnValue
        = Except.error "Generator has not finished or return value is not set") := by
  refine ⟨?_, ?_, ?_⟩
  · by_cases hf : g.finished = true
    · rcases hr : g.returnValue with _ | r0 <;>
        simp [GState.GetReturnValue, hf, hr]
    · have hf0 : g.finished = false := by
        cases hb : g.finished
        · rfl
        · exact absurd hb hf
      rcases hr : g.returnValue with _ | r0 <;>
        simp [GState.GetReturnValue, hf0, hr]
  · intro h
    rcases h with hf | hr
    · simp [GState.GetReturnValue, hf]
    · cases hb : g.finished <;> simp [GState.GetReturnValue, hb, hr]
  · intro h
    have : (GState.grun ({} : GState T R) ops).returnValue = none :=
      grun_returnValue_none ({} : GState T R) ops rfl h
    cases hb : (GState.grun ({} : GState T R) ops).finished <;>
      simp [GState.GetReturnValue, hb, this]

/-- C8 at concrete inputs: a finished state with stored return value `5`
succeeds; a run consisting of a `reject` (which sets `finished` but stores
no return value) fails. -/
theorem C8_return_value_witness :
    (({ finished := true, returnValue := some 5 } :
        GState Nat Nat).GetReturnValue = Except.ok 5)
    ∧ ((GState.grun ({} : GState Nat Nat) [GOp.reject "x"]).GetReturnValue
      = Except.error "Generator has not finished or return value is not set") := by
  constructor
  · exact (C8_return_value Nat Nat
      { finished := true, returnValue := some 5 } 5 []).1.mpr ⟨rfl, rfl⟩
  · exact (C8_return_value Nat Nat {} 0 [GOp.reject "x"]).2.2
      (by intro x; simp)

/-- Helper: the waiter-presence invariant of C6 is preserved by every
generator operation. -/
theorem waiter_inv_step (g : GState T R) (op : GOp T R)
    (h : ∀ q, g.nextPromise = some q →
      g.values = [] ∧ g.exception = none ∧ g.finished = false) :
    ∀ p, (g.gstep op).nextPromise = some p →
      (g.gstep op).values = [] ∧ (g.gstep op).exception = none
      ∧ (g.gstep op).finished = false := by
  intro p hp
  cases op with
  | next =>
    rcases hv : g.values with _ | ⟨v1, rest⟩
    · rcases he : g.exception with _ | e
      · by_cases hf : g.finished = true
        · simp [GState.gstep, GState.NextAsync, hv, he, hf] at hp ⊢
          exact absurd hf (by simp [(h p hp).2.2])
        · rcases hq : g.nextPromise with _ | q <;>
            simp [GState.gstep, GState.NextAsync, hv, he, hf, hq]
      · simp [GState.gstep, GState.NextAsync, hv, he] at hp
        exact absurd (h p hp).2.1 (by simp [he])
    · simp [GState.gstep, GState.NextAsync, hv] at hp
      exact absurd (h p hp).1 (by simp [hv])
  | feed w =>
    rcases hq : g.nextPromise with _ | q <;>
      simp [GState.gstep, GState.Feed, hq] at hp
  | finish r =>
    rcases hq : g.nextPromise with _ | q <;>
      simp [GState.gstep, GState.Finish, hq] at hp
  | reject e =>
    rcases hq : g.nextPromise with _ | q <;>
      simp [GState.gstep, GState.Reject, hq] at hp

/-- C6: in every state reachable from the fresh generator state by a
sequence of next/feed/finish/reject operations, a present waiter implies
the buffer is empty, no pending error is stored, and `finished` is false. -/
theorem C6_waiter_invariant (T R : Type) (ops : List (GOp T R))
    (p : PState (Option T)) :
    (GState.grun ({} : GState T R) ops).nextPromise = some p →
      (GState.grun ({} : GState T R) ops).values = []
      ∧ (GState.grun ({} : GState T R) ops).exception = none
      ∧ (GState.grun ({} : GState T R) ops).finished = false := by
  suffices hgen : ∀ (g : GState T R),
      (∀ q, g.nextPromise = some q →
        g.values = [] ∧ g.exception = none ∧ g.finished = false) →
      ∀ q, (g.grun ops).nextPromise = some q →
        (g.grun ops).values = [] ∧ (g.grun ops).exception = none
        ∧ (g.grun ops).finished = false by
    intro hp
    exact hgen {} (by intro q hq; exact absurd hq (by simp)) p hp
  induction ops with
  | nil => intro g hg q hq; exact hg q hq
  | cons op rest ih =>
    intro g hg q hq
    exact ih (g.gstep op) (waiter_inv_step g op hg) q hq

/-- C6 at a concrete input: after a single `next()` parks a waiter, the
buffer is empty, no error is pending, and the stream is not finished. -/
theorem C6_waiter_invariant_witness :
    (GState.grun ({} : GState Nat Unit) [GOp.next]).values = []
    ∧ (GState.grun ({} : GState Nat Unit) [GOp.next]).exception = none
    ∧ (GState.grun ({} : GState Nat Unit) [GOp.next]).finished = false := by
  exact C6_waiter_invariant Nat Unit [GOp.next] {} rfl

/-- Helper: a `size_t` decrement of a positive in-range counter. -/
theorem usub1_eq (p : Nat) (h1 : 1 ≤ p) (h2 : p < usize) :
    usub1 p = p - 1 := by
  have hu : usize = 18446744073709551616 := by norm_num [usize]
  simp only [usub1, hu] at *
  omega

/-- Helper: `Any` ignores every settlement after the first resolution. -/
theorem AnyRun.run_resolved (st : AnyRun T) (evs : List (Settle T))
    (h : st.resolved = true) : st.run evs = (st, []) := by
  induction evs with
  | nil => rfl
  | cons e rest ih =>
    have hstep : st.step e = (st, []) := by
      rcases e with ⟨i, w⟩ | ⟨i, msg⟩ <;>
        simp [AnyRun.step, AnyRun.thenCb, AnyRun.catchCb, h]
    simp [AnyRun.run, hstep, ih]

/-- Helper: the final state of a run over concatenated settlements. -/
theorem anyRun_append_fst (st : AnyRun T) (a b : List (Settle T)) :
    (st.run (a ++ b)).1 = ((st.run a).1.run b).1 := by
  induction a generalizing st with
  | nil => rfl
  | cons e rest ih => simp [AnyRun.run, ih]

/-- Helper: a run of fewer rejections than `pending` only decrements
`pending`; `resolved` stays false and the result promise is untouched. -/
theorem AnyRun.run_rejections (st : AnyRun T) (evs : List (Settle T))
    (hres : st.resolved = false) (hall : ∀ ev ∈ evs, ev.isRes = false)
    (hlen : evs.length < st.pending) (hp : st.pending < usize) :
    st.run evs = ({ st with pending := st.pending - evs.length }, []) := by
  induction evs generalizing st with
  | nil => simp [AnyRun.run]
  | cons e rest ih =>
    rcases e with ⟨i, w⟩ | ⟨i, msg⟩
    · have hw := hall (Settle.res i w) (by simp)
      simp [Settle.isRes] at hw
    · have hlen1 : rest.length + 1 < st.pending := by simpa using hlen
      have hp1 : usub1 st.pending = st.pending - 1 :=
        usub1_eq st.pending (by omega) hp
      have hne : ¬(st.pending - 1 = 0) := by omega
      have hstep : st.step (Settle.rej i msg)
          = ({ st with pending := st.pending - 1 }, []) := by
        simp [AnyRun.step, AnyRun.catchCb, hres, hp1, hne]
      have hrest := ih { st with pending := st.pending - 1 } hres
        (fun ev hev => hall ev (by simp [hev]))
        (show rest.length < st.pending - 1 by omega)
        (show st.pending - 1 < usize by omega)
      have harith : st.pending - 1 - rest.length
          = st.pending - (rest.length + 1) := by omega
      simp [AnyRun.run, hstep, hrest, harith]

/-- C7 counterexample: with a single input that rejects, `Any` rejects the
result promise with the message "All promises rejected", not with the
message "all promises rejected" quoted by the claim. -/
theorem C7_any_message_counterexample :
    (((AnyRun.init Nat 1).run [Settle.rej 0 "e1"]).1.promise.exception
      = some "All promises rejected")
    ∧ (((AnyRun.init Nat 1).run [Settle.rej 0 "e1"]).1.promise.exception
      ≠ some "all promises rejected") := by
  exact ⟨rfl, by decide⟩

/-- C7 (amended): `Any` resolves with the value of the first input to
resolve, in order of settlement rather than position — any rejections
settling before it and any settlements after it are ignored; and if every
input rejects, the result promise is rejected with the fixed message
"All promises rejected", no individual failure message being aggregated. -/
theorem C7_any_correct (T : Type) (n : Nat) (pre post evs : List (Settle T))
    (k : Nat) (v : T) :
    ((∀ ev ∈ pre, ev.isRes = false) → pre.length < n → n < usize →
      (((AnyRun.init T n).run (pre ++ Settle.res k v :: post)).1.promise
        = { value := some v }))
    ∧ ((∀ ev ∈ evs, ev.isRes = false) → evs.length = n → 0 < n → n < usize →
      (((AnyRun.init T n).run evs).1.promise
        = { exception := some "All promises rejected" })) := by
  constructor
  · intro hall hlen hn
    have h1 : (AnyRun.init T n).run pre
        = ({ AnyRun.init T n with pending := n - pre.length }, []) :=
      AnyRun.run_rejections (AnyRun.init T n) pre rfl hall hlen hn
    have hstep : ({ AnyRun.init T n with pending := n - pre.length } :
          AnyRun T).step (Settle.res k v)
        = ({ pending := n - pre.length, resolved := true,
             promise := { value := some v } }, []) := by
      simp [AnyRun.step, AnyRun.thenCb, AnyRun.init, PState.Resolve]
    have hpost : ({ pending := n - pre.length, resolved := true,
                    promise := { value := some v } } : AnyRun T).run post
        = ({ pending := n - pre.length, resolved := true,
             promise := { value := some v } }, []) :=
      AnyRun.run_resolved _ post rfl
    rw [anyRun_append_fst, h1]
    simp [AnyRun.run, hstep, hpost]
  · intro hall hlen hn hsz
    rcases List.eq_nil_or_concat evs with hnil | ⟨front, last, hsplit⟩
    · rw [hnil] at hlen
      simp at hlen
      omega
    · subst hsplit
      rw [List.concat_eq_append] at hall hlen ⊢
      have hfl : front.length + 1 = n := by simpa using hlen
      have h1 : (AnyRun.init T n).run front
          = ({ AnyRun.init T n with pending := n - front.length }, []) :=
        AnyRun.run_rejections (AnyRun.init T n) front rfl
          (fun ev hev => hall ev (by simp [hev]))
          (show front.length < n by omega) hsz
      have hpend : n - front.length = 1 := by omega
      rcases last with ⟨i, w⟩ | ⟨i, msg⟩
      · have hw := hall (Settle.res i w) (by simp)
        simp [Settle.isRes] at hw
      · have hu1 : usub1 1 = 0 := by
          have hu : usize = 18446744073709551616 := by norm_num [usize]
          simp [usub1, hu]
        have hstep : ({ AnyRun.init T n with pending := 1 } :
              AnyRun T).step (Settle.rej i msg)
            = ({ pending := 0, resolved := false,
                 promise := { exception := some "All promises rejected" } },
               []) := by
          simp [AnyRun.step, AnyRun.catchCb, AnyRun.init, hu1, PState.Reject]
        rw [anyRun_append_fst, h1, hpend]
        simp [AnyRun.run, hstep]

/-- C7 (amended) at concrete inputs: with two inputs, a rejection followed
by input 1 resolving to 7 resolves the aggregate with 7; two rejections
reject the aggregate with the fixed message. -/
theorem C7_any_correct_witness :
    (((AnyRun.init Nat 2).run
        [Settle.rej 0 "a", Settle.res 1 7]).1.promise = { value := some 7 })
    ∧ (((AnyRun.init Nat 2).run
        [Settle.rej 0 "a", Settle.rej 1 "b"]).1.promise
      = { exception := some "All promises rejected" }) := by
  constructor
  · exact (C7_any_correct Nat 2 [Settle.rej 0 "a"] [] [] 1 7).1
      (by decide) (by decide) (by decide)
  · exact (C7_any_correct Nat 2 [] []
      [Settle.rej 0 "a", Settle.rej 1 "b"] 0 0).2
      (by decide) (by decide) (by decide) (by decide)

/-- Index of the input promise a settlement belongs to. -/
def Settle.idx : Settle T → Nat
  | Settle.res i _ => i
  | Settle.rej i _ => i

/-- The writes a settlement sequence performs on the `All` values vector
(`result->values[i] = value` for each resolution, in order). -/
def writeAll (vs : List T) : List (Settle T) → List T
  | [] => vs
  | Settle.res i v :: rest => writeAll (vs.set i v) rest
  | Settle.rej _ _ :: rest => writeAll vs rest

/-- Helper: `writeAll` over concatenation. -/
theorem writeAll_append (vs : List T) (a b : List (Settle T)) :
    writeAll vs (a ++ b) = writeAll (writeAll vs a) b := by
  induction a generalizing vs with
  | nil => rfl
  | cons e rest ih =>
    rcases e with ⟨i, w⟩ | ⟨i, msg⟩ <;> simp [writeAll, ih]

/-- Helper: `writeAll` preserves the vector length. -/
theorem writeAll_length (vs : List T) (evs : List (Settle T)) :
    (writeAll vs evs).length = vs.length := by
  induction evs generalizing vs with
  | nil => rfl
  | cons e rest ih =>
    rcases e with ⟨i, w⟩ | ⟨i, msg⟩ <;> simp [writeAll, ih]

/-- Helper: positions no resolution writes to are untouched. -/
theorem writeAll_get_of_not_written (vs : List T) (evs : List (Settle T))
    (i : Nat) (h : ∀ w, Settle.res i w ∉ evs) :
    (writeAll vs evs).get? i = vs.get? i := by
  induction evs generalizing vs with
  | nil => rfl
  | cons e rest ih =>
    have hrest : ∀ w, Settle.res i w ∉ rest := by
      intro w hw
      exact h w (by simp [hw])
    rcases e with ⟨j, w⟩ | ⟨j, msg⟩
    · have hij : i ≠ j := by
        intro hij
        exact h w (by simp [hij])
      rw [writeAll, ih (vs.set j w) hrest,
        List.get?_set_ne w vs (fun hj => hij hj.symm)]
    · rw [writeAll, ih vs hrest]

/-- Helper: with pairwise distinct settlement indices, the position a
resolution writes to ends up holding its value. -/
theorem writeAll_get_of_written (vs : List T) (evs : List (Settle T))
    (i : Nat) (v : T) (hi : i < vs.length)
    (hd : (evs.map Settle.idx).Nodup) (hm : Settle.res i v ∈ evs) :
    (writeAll vs evs).get? i = some v := by
  induction evs generalizing vs with
  | nil => simp at hm
  | cons e rest ih =>
    have hd1 : Settle.idx e ∉ rest.map Settle.idx
        ∧ (rest.map Settle.idx).Nodup := by
      rw [List.map_cons] at hd
      exact List.nodup_cons.mp hd
    rcases e with ⟨j, w⟩ | ⟨j, msg⟩
    · by_cases hij : i = j
      · subst hij
        have hnw : ∀ u, Settle.res i u ∉ rest := by
          intro u hu
          exact hd1.1 (by
            simpa [Settle.idx] using
              List.mem_map.mpr ⟨Settle.res i u, hu, rfl⟩)
        have hv : v = w := by
          rcases List.mem_cons.mp hm with h1 | h1
          · simpa using h1
          · exact absurd h1 (hnw v)
        subst hv
        rw [writeAll, writeAll_get_of_not_written (vs.set i v) rest i hnw,
          List.get?_set_eq_of_lt v hi]
      · have hm1 : Settle.res i v ∈ rest := by
          rcases List.mem_cons.mp hm with h1 | h1
          · exact absurd (by simpa using h1 : i = j ∧ v = w).1 hij
          · exact h1
        rw [writeAll]
        exact ih (vs.set j w) (by simpa using hi) hd1.2 hm1
    · have hm1 : Settle.res i v ∈ rest := by
        rcases List.mem_cons.mp hm with h1 | h1
        · simp at h1
        · exact h1
      rw [writeAll]
      exact ih vs hi hd1.2 hm1

/-- Helper: `All` ignores every settlement once `rejected` is set. -/
theorem AllRun.run_rejected (st : AllRun T) (evs : List (Settle T))
    (h : st.rejected = true) : st.run evs = (st, []) := by
  induction evs with
  | nil => rfl
  | cons e rest ih =>
    have hstep : st.step e = (st, []) := by
      rcases e with ⟨i, w⟩ | ⟨i, msg⟩ <;>
        simp [AllRun.step, AllRun.thenCb, AllRun.catchCb, h]
    simp [AllRun.run, hstep, ih]

/-- Helper: the final state of an `All` run over concatenated
settlements. -/
theorem allRun_append_fst (st : AllRun T) (a b : List (Settle T)) :
    (st.run (a ++ b)).1 = ((st.run a).1.run b).1 := by
  induction a generalizing st with
  | nil => rfl
  | cons e rest ih => simp [AllRun.run, ih]

/-- Helper: a run of fewer resolutions than `pending` writes their values,
decrements `pending`, and leaves the result promise untouched. -/
theorem AllRun.run_resolutions (st : AllRun T) (evs : List (Settle T))
    (hrej : st.rejected = false) (hpr : st.promise = {})
    (hall : ∀ ev ∈ evs, ev.isRes = true)
    (hlen : evs.length < st.pending) (hp : st.pending < usize) :
    st.run evs = ({ st with values := writeAll st.values evs,
                            pending := st.pending - evs.length }, []) := by
  induction evs generalizing st with
  | nil => simp [AllRun.run, writeAll]
  | cons e rest ih =>
    rcases e with ⟨i, w⟩ | ⟨i, msg⟩
    · have hlen1 : rest.length + 1 < st.pending := by simpa using hlen
      have hp1 : usub1 st.pending = st.pending - 1 :=
        usub1_eq st.pending (by omega) hp
      have hne : ¬(st.pending - 1 = 0) := by omega
      have hstep : st.step (Settle.res i w)
          = ({ st with values := st.values.set i w,
                       pending := st.pending - 1 }, []) := by
        simp [AllRun.step, AllRun.thenCb, hrej, hp1, hne]
      have hrest := ih { st with values := st.values.set i w,
                                 pending := st.pending - 1 }
        hrej hpr (fun ev hev => hall ev (by simp [hev]))
        (show rest.length < st.pending - 1 by omega)
        (show st.pending - 1 < usize by omega)
      have harith : st.pending - 1 - rest.length
          = st.pending - (rest.length + 1) := by omega
      simp [AllRun.run, hstep, hrest, harith, writeAll]
    · have hw := hall (Settle.rej i msg) (by simp)
      simp [Settle.isRes] at hw

/-- C3: `All` resolves with the vector of the inputs' values in positional
order once every input has resolved (in any settlement order); on the
first rejection the result promise is rejected with that failure's
message, every later settlement is ignored, and no value is written into
the values vector once the aggregate has rejected. -/
theorem C3_all_correct (T : Type) [Inhabited T] (n : Nat)
    (sched pre post : List (Settle T)) (k : Nat) (e : String) :
    ((∀ ev ∈ sched, ev.isRes = true) → sched.length = n → 0 < n →
      n < usize → (sched.map Settle.idx).Nodup →
      ∃ vs, ((AllRun.init T n).run sched).1.promise = { value := some vs }
        ∧ vs.length = n
        ∧ (∀ i v, Settle.res i v ∈ sched → i < n → vs.get? i = some v))
    ∧ ((∀ ev ∈ pre, ev.isRes = true) → pre.length < n → n < usize →
      (((AllRun.init T n).run (pre ++ Settle.rej k e :: post)).1.promise
          = { exception := some e })
      ∧ (((AllRun.init T n).run (pre ++ Settle.rej k e :: post)).1.values
          = writeAll (List.replicate n default) pre)
      ∧ (((AllRun.init T n).run (pre ++ Settle.rej k e :: post)).1.rejected
          = true)) := by
  constructor
  · intro hall hlen hn hsz hnd
    rcases List.eq_nil_or_concat sched with hnil | ⟨front, last, hsplit⟩
    · rw [hnil] at hlen
      simp at hlen
      omega
    · subst hsplit
      rw [List.concat_eq_append] at hall hlen hnd ⊢
      have hfl : front.length + 1 = n := by simpa using hlen
      have h1 : (AllRun.init T n).run front
          = ({ AllRun.init T n with values := writeAll (List.replicate n default) front, pending := n - front.length }, []) :=
        AllRun.run_resolutions (AllRun.init T n) front rfl rfl
          (fun ev hev => hall ev (by simp [hev]))
          (show front.length < n by omega) hsz
      have hpend : n - front.length = 1 := by omega
      rcases last with ⟨i, w⟩ | ⟨i, msg⟩
      · have hu1 : usub1 1 = 0 := by
          have hu : usize = 18446744073709551616 := by norm_num [usize]
          simp [usub1, hu]
        have hstep :
            ({ AllRun.init T n with values := writeAll (List.replicate n default) front, pending := 1 } : AllRun T).step (Settle.res i w)
            = ({ values := (writeAll (List.replicate n default) front).set i w, pending := 0, rejected := false, promise := { value := some ((writeAll (List.replicate n default) front).set i w) } }, []) := by
          simp [AllRun.step, AllRun.thenCb, AllRun.init, hu1, PState.Resolve]
        refine ⟨(writeAll (List.replicate n default) front).set i w, ?_, ?_, ?_⟩
        · rw [allRun_append_fst, h1, hpend]
          simp [AllRun.run, hstep]
        · simp [writeAll_length]
        · intro j v hm hj
          have hvs : (writeAll (List.replicate n default) front).set i w
              = writeAll (List.replicate n default)
                  (front ++ [Settle.res i w]) := by
            rw [writeAll_append]
            rfl
          rw [hvs]
          exact writeAll_get_of_written (List.replicate n default)
            (front ++ [Settle.res i w]) j v (by simpa using hj) hnd hm
      · have hw := hall (Settle.rej i msg) (by simp)
        simp [Settle.isRes] at hw
  · intro hall hlen hsz
    have h1 : (AllRun.init T n).run pre
        = ({ AllRun.init T n with values := writeAll (List.replicate n default) pre, pending := n - pre.length }, []) :=
      AllRun.run_resolutions (AllRun.init T n) pre rfl rfl hall hlen hsz
    have hstep :
        ({ AllRun.init T n with values := writeAll (List.replicate n default) pre, pending := n - pre.length } : AllRun T).step (Settle.rej k e)
        = ({ values := writeAll (List.replicate n default) pre, pending := n - pre.length, rejected := true, promise := { exception := some e } }, []) := by
      simp [AllRun.step, AllRun.catchCb, AllRun.init, PState.Reject]
    have hpost :
        ({ values := writeAll (List.replicate n default) pre, pending := n - pre.length, rejected := true, promise := { exception := some e } } : AllRun T).run post
        = ({ values := writeAll (List.replicate n default) pre, pending := n - pre.length, rejected := true, promise := { exception := some e } }, []) :=
      AllRun.run_rejected _ post rfl
    rw [allRun_append_fst, h1]
    simp [AllRun.run, hstep, hpost]

/-- C3 at concrete inputs: two inputs resolving out of positional order
give the positional vector `[10, 20]`; a rejection after one resolution
rejects the aggregate with that message and freezes the values vector. -/
theorem C3_all_correct_witness :
    (((AllRun.init Nat 2).run
        [Settle.res 1 20, Settle.res 0 10]).1.promise.value = some [10, 20])
    ∧ (((AllRun.init Nat 3).run
        [Settle.res 1 20, Settle.rej 2 "bad", Settle.res 0 10]).1.promise
      = { exception := some "bad" })
    ∧ (((AllRun.init Nat 3).run
        [Settle.res 1 20, Settle.rej 2 "bad", Settle.res 0 10]).1.values
      = [0, 20, 0]) := by
  refine ⟨?_, ?_, ?_⟩
  · have h := (C3_all_correct Nat 2 [Settle.res 1 20, Settle.res 0 10]
      [] [] 0 "x").1 (by decide) (by decide) (by decide) (by decide)
      (by decide)
    rcases h with ⟨vs, hp, hlen, hget⟩
    have h0 : vs.get? 0 = some 10 := hget 0 10 (by decide) (by decide)
    have h1 : vs.get? 1 = some 20 := hget 1 20 (by decide) (by decide)
    have hv : vs = [10, 20] := by
      rcases vs with _ | ⟨a, _ | ⟨b, _ | ⟨c, t⟩⟩⟩
      · simp at hlen
      · simp at hlen
      · simp [List.get?] at h0 h1
        simp [h0, h1]
      · simp at hlen
    rw [hp, hv]
  · exact ((C3_all_correct Nat 3 [] [Settle.res 1 20] [Settle.res 0 10]
      2 "bad").2 (by decide) (by decide) (by decide)).1
  · exact (((C3_all_correct Nat 3 [] [Settle.res 1 20] [Settle.res 0 10]
      2 "bad").2 (by decide) (by decide) (by decide)).2.1).trans (by decide)

/-- Callback identifiers an operation registers. -/
def POp.regs : POp T → List Nat
  | POp.thenReg cb => [cb]
  | POp.catchReg cb => [cb]
  | _ => []

/-- The callback identifier an event invokes, if any. -/
def Ev.cbId : Ev T → Option Nat
  | Ev.thenCalled cb _ => some cb
  | Ev.catchCalled cb _ => some cb
  | _ => none

/-- Helper: an operation that does not register callback `c` on a state
that does not store `c` neither invokes `c` nor leaves `c` stored.  Every
event's callback is either stored in the pre-state or registered by the
operation itself. -/
theorem step_no_foreign_cb (s : PState T) (op : POp T) (c : Nat)
    (hs1 : s.thenCallback ≠ some c) (hs2 : s.catchCallback ≠ some c)
    (hreg : c ∉ op.regs) :
    ((s.step op).1.thenCallback ≠ some c
      ∧ (s.step op).1.catchCallback ≠ some c)
    ∧ ∀ ev ∈ (s.step op).2, ev.cbId ≠ some c := by
  cases op with
  | resolve v =>
    rcases hch : s.callingHandle with _ | h
    · rcases ht : s.thenCallback with _ | cb
      · simp [PState.step, PState.Resolve, hch, ht, Ev.cbId, hs1, hs2]
      · have hcb : cb ≠ c := fun hE => hs1 (by rw [ht, hE])
        simp [PState.step, PState.Resolve, hch, ht, Ev.cbId, hs1, hs2, hcb]
    · rcases he : s.exception with _ | e <;>
        simp [PState.step, PState.Resolve, hch, he, Ev.cbId, hs1, hs2]
  | reject e =>
    rcases hch : s.callingHandle with _ | h
    · rcases hcc : s.catchCallback with _ | cb
      · simp [PState.step, PState.Reject, hch, hcc, Ev.cbId, hs1, hs2]
      · have hcb : cb ≠ c := fun hE => hs2 (by rw [hcc, hE])
        simp [PState.step, PState.Reject, hch, hcc, Ev.cbId, hs1, hs2, hcb]
    · simp [PState.step, PState.Reject, hch, Ev.cbId, hs1, hs2]
  | thenReg cb =>
    have hcb : cb ≠ c := fun hE => (by simpa [POp.regs] using hreg : ¬c = cb) hE.symm
    rcases hch : s.callingHandle with _ | h
    · rcases hv : s.value with _ | v
      · simp [PState.step, PState.Then, hch, hv, Ev.cbId, hs1, hs2, hcb]
      · simp [PState.step, PState.Then, hch, hv, Ev.cbId, hs1, hs2, hcb]
    · simp [PState.step, PState.Then, hch, hs1, hs2]
  | catchReg cb =>
    have hcb : cb ≠ c := fun hE => (by simpa [POp.regs] using hreg : ¬c = cb) hE.symm
    rcases hch : s.callingHandle with _ | h
    · rcases he : s.exception with _ | e
      · simp [PState.step, PState.Catch, hch, he, Ev.cbId, hs1, hs2, hcb]
      · simp [PState.step, PState.Catch, hch, he, Ev.cbId, hs1, hs2, hcb]
    · simp [PState.step, PState.Catch, hch, hs1, hs2]
  | park h => simp [PState.step, PState.await_suspend, Ev.cbId, hs1, hs2]

/-- Helper: over a run whose operations never register callback `c`, a
state that does not store `c` never produces an event invoking `c`. -/
theorem run_no_foreign_cb (s : PState T) (ops : List (POp T)) (c : Nat)
    (hs1 : s.thenCallback ≠ some c) (hs2 : s.catchCallback ≠ some c)
    (hreg : ∀ op ∈ ops, c ∉ op.regs) :
    ∀ ev ∈ (s.run ops).2, ev.cbId ≠ some c := by
  induction ops generalizing s with
  | nil => simp [PState.run]
  | cons op rest ih =>
    intro ev hev
    have hstep := step_no_foreign_cb s op c hs1 hs2 (hreg op (by simp))
    have hrest := ih (s.step op).1 hstep.1.1 hstep.1.2
      (fun o ho => hreg o (by simp [ho]))
    have hsplit : ev ∈ (s.step op).2 ∨ ev ∈ ((s.step op).1.run rest).2 := by
      simpa [PState.run, List.mem_append] using hev
    rcases hsplit with h1 | h1
    · exact hstep.2 ev h1
    · exact hrest ev h1

/-- C10: on a promise with no parked awaiter, registering a `Then` (or,
symmetrically, `Catch`) callback while one of the same kind is already
stored does not fail: the new callback silently replaces the stored one,
any synchronous firing at registration invokes only the new callback, and
the replaced callback is never invoked by any later operation sequence
that does not re-register it. -/
theorem C10_then_catch_replace (T : Type) (s : PState T) (cb1 cb2 : Nat)
    (ops : List (POp T)) :
    (s.callingHandle = none → s.thenCallback = some cb1 → cb1 ≠ cb2 →
      s.catchCallback ≠ some cb1 → (∀ op ∈ ops, cb1 ∉ op.regs) →
      ∃ s1 evs, s.Then cb2 = Except.ok (s1, evs)
        ∧ s1.thenCallback = some cb2
        ∧ (∀ ev ∈ evs, ev.cbId ≠ some cb1)
        ∧ (∀ ev ∈ (s1.run ops).2, ev.cbId ≠ some cb1))
    ∧ (s.callingHandle = none → s.catchCallback = some cb1 → cb1 ≠ cb2 →
      s.thenCallback ≠ some cb1 → (∀ op ∈ ops, cb1 ∉ op.regs) →
      ∃ s1 evs, s.Catch cb2 = Except.ok (s1, evs)
        ∧ s1.catchCallback = some cb2
        ∧ (∀ ev ∈ evs, ev.cbId ≠ some cb1)
        ∧ (∀ ev ∈ (s1.run ops).2, ev.cbId ≠ some cb1)) := by
  constructor
  · intro hch ht hne hcc hreg
    rcases hv : s.value with _ | v
    · refine ⟨{ s with thenCallback := some cb2 }, [], ?_, rfl, by simp, ?_⟩
      · simp [PState.Then, hch, hv]
      · exact run_no_foreign_cb _ ops cb1
          (fun hE => hne (Option.some.inj hE).symm) hcc hreg
    · refine ⟨{ s with thenCallback := some cb2, value := none },
        [Ev.thenCalled cb2 v], ?_, rfl, ?_, ?_⟩
      · simp [PState.Then, hch, hv]
      · intro ev hev
        have hev1 : ev = Ev.thenCalled cb2 v := by simpa using hev
        subst hev1
        simp [Ev.cbId]
        exact fun hE => hne hE.symm
      · exact run_no_foreign_cb _ ops cb1
          (fun hE => hne (Option.some.inj hE).symm) hcc hreg
  · intro hch hcc hne ht hreg
    rcases he : s.exception with _ | e
    · refine ⟨{ s with catchCallback := some cb2 }, [], ?_, rfl, by simp, ?_⟩
      · simp [PState.Catch, hch, he]
      · exact run_no_foreign_cb _ ops cb1 ht
          (fun hE => hne (Option.some.inj hE).symm) hreg
    · refine ⟨{ s with catchCallback := some cb2 },
        [Ev.catchCalled cb2 e], ?_, rfl, ?_, ?_⟩
      · simp [PState.Catch, hch, he]
      · intro ev hev
        have hev1 : ev = Ev.catchCalled cb2 e := by simpa using hev
        subst hev1
        simp [Ev.cbId]
        exact fun hE => hne hE.symm
      · exact run_no_foreign_cb _ ops cb1 ht
          (fun hE => hne (Option.some.inj hE).symm) hreg

/-- C10 at a concrete input: callback `1` is stored, callback `2` replaces
it, and a subsequent resolve delivers only to callback `2`. -/
theorem C10_then_catch_replace_witness :
    ∃ s1 evs, ({ thenCallback := some 1 } : PState Nat).Then 2
        = Except.ok (s1, evs)
      ∧ s1.thenCallback = some 2
      ∧ (∀ ev ∈ evs, ev.cbId ≠ some 1)
      ∧ (∀ ev ∈ (s1.run [POp.resolve 5]).2, ev.cbId ≠ some 1) := by
  exact (C10_then_catch_replace Nat { thenCallback := some 1 } 1 2
    [POp.resolve 5]).1 rfl rfl (by decide) (by decide) (by decide)

end JS
